import Mathlib

/-!
Shallow embedding of the root-confined filesystem access layer in
`src/src-tauri/src/lib.rs` (the `listfilemanager` repository).

Modelling conventions:
* A filesystem path is a list of name components, read from the filesystem
  root `/`.  Rust `Path` operations that are component-wise (`starts_with`,
  `strip_prefix`, `parent`, `join`) become list operations.
* The filesystem is a finite tree of nodes.  Files carry a size and a flag
  saying whether a metadata read on them succeeds; directories carry a flag
  saying whether `read_dir` on them succeeds (models permission failures);
  symlinks carry an absolute target path.
* `std::fs::canonicalize` (POSIX `realpath`) is modelled by `canonicalize`:
  it walks the components, resolving `.`, `..` (clamped at `/`, as the
  kernel does) and symlinks, requiring every prefix to exist.  Resolution
  is fuel-bounded, mirroring the kernel's bounded symlink resolution
  (`ELOOP`); exhausting the fuel is a resolution failure.
* Operations that mutate return an `Except Err Unit × Node` pair: the
  second component is the filesystem after the call, so partial mutation
  before a failure is observable (e.g. directories created by
  `create_dir_all` before a later error remain).
* The Rust code reports errors as formatted strings; the inductive `Err`
  has one constructor per distinct error string in the source.
-/

/-- ASCII whitespace test, modelling the whitespace stripped by Rust
`str::trim` for the inputs we consider. -/
def isWs (c : Char) : Bool := c == ' ' || c == '\t' || c == '\n' || c == '\r'

/-- Rust `str::trim` on the underlying character list: drop whitespace from
both ends. -/
def trimList (l : List Char) : List Char :=
  ((l.dropWhile isWs).reverse.dropWhile isWs).reverse

/-- Split a character list at `/` separators (helper for path parsing). -/
def splitSlashAux (cur : List Char) : List Char → List (List Char)
  | [] => [cur.reverse]
  | c :: rest => if c = '/' then cur.reverse :: splitSlashAux [] rest else splitSlashAux (c :: cur) rest

/-- Parse a character list into path components: split at `/`, dropping
empty components (repeated or leading separators) and `.` components, as
Rust `Path::components` normalisation and kernel path resolution both do.
`..` components are kept. -/
def parseComps (l : List Char) : List String :=
  ((splitSlashAux [] l).map (fun cs => String.mk cs)).filter
    (fun s => !(s == "" || s == "."))

/-- Parse a path string into components. -/
def parsePath (s : String) : List String := parseComps s.data

/-- Rust `Path::join`: an absolute right-hand side replaces the base. -/
def joinPath (base : List String) (s : String) : List String :=
  if s.data.head? = some '/' then parseComps s.data else base ++ parseComps s.data

/-- Display an absolute component path the way `Path::display` shows it. -/
def pathStr (p : List String) : String := p.foldl (fun a c => a ++ "/" ++ c) ""

/-- Display a relative component path (components joined by `/`). -/
def relStr (p : List String) : String :=
  match p with
  | [] => ""
  | c :: rest => rest.foldl (fun a x => a ++ "/" ++ x) c

/-- A node of the modelled filesystem tree. -/
inductive Node where
  | file (size : Nat) (metaOk : Bool)
  | dir (entries : List (String × Node)) (readable : Bool)
  | symlink (target : List String)

/-- Look up a directory entry by name (first match). -/
def findEntry : List (String × Node) → String → Option Node
  | [], _ => none
  | (k, v) :: rest, n => if k = n then some v else findEntry rest n

/-- Structural lookup of a literal component path (no symlink or dot
resolution); used on canonical paths and single final components. -/
def lookupNode : Node → List String → Option Node
  | n, [] => some n
  | Node.dir es _, c :: rest =>
    match findEntry es c with
    | some child => lookupNode child rest
    | none => none
  | _, _ :: _ => none

/-- One canonicalization pass: `acc` is the already-resolved canonical
prefix, `comps` the remaining components.  `..` pops (clamped at the root),
symlinks restart resolution at their absolute target, every step must hit
an existing node.  The fuel bounds total work and hence symlink chains,
modelling the kernel's `ELOOP` limit. -/
def resolveComps (fs : Node) : Nat → List String → List String → Option (List String)
  | 0, _, _ => none
  | _ + 1, acc, [] => some acc
  | fuel + 1, acc, c :: rest =>
    if c = "." then resolveComps fs fuel acc rest
    else if c = ".." then resolveComps fs fuel acc.dropLast rest
    else
      match lookupNode fs (acc ++ [c]) with
      | none => none
      | some (Node.symlink t) => resolveComps fs fuel [] (t ++ rest)
      | some _ => resolveComps fs fuel (acc ++ [c]) rest

/-- `std::fs::canonicalize` on the modelled tree.  The fuel depends only on
the path being resolved, so resolution is unaffected by growth of the tree
elsewhere. -/
def canonicalize (fs : Node) (p : List String) : Option (List String) :=
  resolveComps fs (p.length + 1681) [] p

/-- `stat`: full resolution of a path to its node (follows symlinks). -/
def statNode (fs : Node) (p : List String) : Option Node :=
  match canonicalize fs p with
  | none => none
  | some q => lookupNode fs q

/-- Rust `Path::is_dir` (follows symlinks). -/
def isDir (fs : Node) (p : List String) : Bool :=
  match statNode fs p with
  | some (Node.dir _ _) => true
  | _ => false

/-- Rust `Path::is_file` (follows symlinks). -/
def isFile (fs : Node) (p : List String) : Bool :=
  match statNode fs p with
  | some (Node.file _ _) => true
  | _ => false

/-- Rust `Path::exists` (follows symlinks). -/
def pexists (fs : Node) (p : List String) : Bool :=
  (statNode fs p).isSome

/-- `lstat` through a resolved parent: resolve all but the last component,
then read the final entry without following it.  Models
`DirEntry::metadata`, which does not traverse a final symlink. -/
def lstatLast (fs : Node) (p : List String) : Option Node :=
  match p.getLast? with
  | none => some fs
  | some nm =>
    match canonicalize fs p.dropLast with
    | none => none
    | some d => lookupNode fs (d ++ [nm])

/-- `entry.metadata().map(|m| m.len()).unwrap_or(0)`: the size recorded for
a listed entry; a failed metadata read yields `0`. -/
def entrySize (fs : Node) (p : List String) : Nat :=
  match lstatLast fs p with
  | some (Node.file sz true) => sz
  | _ => 0

/-- Error kinds, one per distinct error string produced by the source. -/
inductive Err where
  | invalidRoot
  | invalidPath
  | escape
  | notAFile
  | noParent
  | destEscape
  | renameFailed
  | deleteFailed
  | destinationMissing
  | createDirFailed
  | createdDirInvalid
  | moveFailed
  | createFolderFailed
  | readDirFailed
  | outOfFuel
  | noFileName
  deriving DecidableEq

/-- `canonical_within` from the source: canonicalize both root and
candidate, then require the candidate to extend the root component-wise
(Rust `Path::starts_with` compares whole components, not string bytes). -/
def canonical_within (fs : Node) (root candidate : List String) : Except Err (List String) :=
  match canonicalize fs root with
  | none => Except.error Err.invalidRoot
  | some r =>
    match canonicalize fs candidate with
    | none => Except.error Err.invalidPath
    | some c => if r.isPrefixOf c then Except.ok c else Except.error Err.escape

/-- Replace the binding of `name` (or append it if absent). -/
def setEntry : List (String × Node) → String → Node → List (String × Node)
  | [], name, v => [(name, v)]
  | (k, w) :: rest, name, v =>
    if k = name then (k, v) :: rest else (k, w) :: setEntry rest name v

/-- Remove the binding of `name` (first occurrence). -/
def removeEntry : List (String × Node) → String → List (String × Node)
  | [], _ => []
  | (k, w) :: rest, name => if k = name then rest else (k, w) :: removeEntry rest name

/-- Rewrite the node at a literal component path. -/
def updateAt : Node → List String → (Node → Option Node) → Option Node
  | n, [], f => f n
  | Node.dir es r, c :: rest, f =>
    match findEntry es c with
    | some child =>
      match updateAt child rest f with
      | some child2 => some (Node.dir (setEntry es c child2) r)
      | none => none
    | none => none
  | _, _ :: _, _ => none

/-- Insert (or overwrite) entry `name ↦ v` in the directory at `dirPath`. -/
def insertAt (fs : Node) (dirPath : List String) (name : String) (v : Node) : Option Node :=
  updateAt fs dirPath (fun n =>
    match n with
    | Node.dir es r => some (Node.dir (setEntry es name v) r)
    | _ => none)

/-- Remove entry `name` from the directory at `dirPath`. -/
def removeAt (fs : Node) (dirPath : List String) (name : String) : Option Node :=
  updateAt fs dirPath (fun n =>
    match n with
    | Node.dir es r => some (Node.dir (removeEntry es name) r)
    | _ => none)

/-- `std::fs::rename`: resolve both parents, require the source entry to
exist and the destination parent to be a directory; an existing destination
directory cannot be overwritten, an existing file is replaced.  `none` is
the syscall failing. -/
def renameFs (fs : Node) (src dst : List String) : Option Node :=
  match src.getLast?, dst.getLast? with
  | some sn, some dn =>
    if dn = "." ∨ dn = ".." then none
    else
      match canonicalize fs src.dropLast with
      | none => none
      | some sp =>
        match lookupNode fs (sp ++ [sn]) with
        | none => none
        | some node =>
          match canonicalize fs dst.dropLast with
          | none => none
          | some dp =>
            match lookupNode fs dp with
            | some (Node.dir des _) =>
              match findEntry des dn with
              | some (Node.dir _ _) => none
              | _ =>
                match removeAt fs sp sn with
                | none => none
                | some fs1 => insertAt fs1 dp dn node
            | _ => none
  | _, _ => none

/-- `std::fs::create_dir_all`: walk the raw components keeping the current
resolved directory `base`; `.` skips, `..` pops, an existing directory (or
a symlink resolving to one) is entered, a missing name is created as a new
directory, anything else fails, leaving the directories created so far. -/
def createDirAllAux : Node → List String → List String → Except Err Unit × Node
  | fs, _, [] => (Except.ok (), fs)
  | fs, base, c :: rest =>
    if c = "." then createDirAllAux fs base rest
    else if c = ".." then createDirAllAux fs base.dropLast rest
    else
      match lookupNode fs (base ++ [c]) with
      | some (Node.dir _ _) => createDirAllAux fs (base ++ [c]) rest
      | some (Node.file _ _) => (Except.error Err.createDirFailed, fs)
      | some (Node.symlink _) =>
        match canonicalize fs (base ++ [c]) with
        | some d =>
          match lookupNode fs d with
          | some (Node.dir _ _) => createDirAllAux fs d rest
          | _ => (Except.error Err.createDirFailed, fs)
        | none => (Except.error Err.createDirFailed, fs)
      | none =>
        match insertAt fs base c (Node.dir [] true) with
        | some fs2 => createDirAllAux fs2 (base ++ [c]) rest
        | none => (Except.error Err.createDirFailed, fs)

/-- `std::fs::create_dir_all` from the filesystem root. -/
def createDirAll (fs : Node) (p : List String) : Except Err Unit × Node :=
  createDirAllAux fs [] p

/-- One produced listing row (the `FileEntry` struct of the source). -/
structure FileEntry where
  path : String
  relative_path : String
  size : Nat
  deriving DecidableEq

/-- `fs::read_dir`: resolve the path, require a readable directory. -/
def readDir (fs : Node) (p : List String) : Except Err (List (String × Node)) :=
  match statNode fs p with
  | some (Node.dir es true) => Except.ok es
  | _ => Except.error Err.readDirFailed

/-- The per-directory loop body of `list_files`: for each entry, compute
its path and root-relative path, queue it if `is_dir` (which follows
symlinks), record a `FileEntry` if `is_file`.  Returns the directories to
push (in entry order) and the file rows (in entry order). -/
def processEntries (fs : Node) (rc dirp : List String) :
    List (String × Node) → List (List String) × List FileEntry
  | [] => ([], [])
  | (name, _) :: rest =>
    let p := dirp ++ [name]
    let rel := if rc.isPrefixOf p then p.drop rc.length else p
    let pr := processEntries fs rc dirp rest
    if isDir fs p then (p :: pr.1, pr.2)
    else if isFile fs p then
      (pr.1, { path := pathStr p, relative_path := relStr rel, size := entrySize fs p } :: pr.2)
    else pr

/-- The work-stack loop of `list_files`.  The head of the stack is the top
(Rust pops the most recently pushed directory).  A failing directory read
aborts the whole listing, as in the source.  The fuel bounds the traversal;
the source itself does not terminate on symlink cycles. -/
def listFilesAux (fs : Node) (rc : List String) :
    Nat → List (List String) → List FileEntry → Except Err (List FileEntry)
  | _, [], acc => Except.ok acc
  | 0, _ :: _, _ => Except.error Err.outOfFuel
  | fuel + 1, dirp :: stack, acc =>
    match readDir fs dirp with
    | Except.error e => Except.error e
    | Except.ok es =>
      let pr := processEntries fs rc dirp es
      listFilesAux fs rc fuel (pr.1.reverse ++ stack) (acc ++ pr.2)

/-- Byte/codepoint lexicographic comparison on character lists. -/
def listLe : List Char → List Char → Bool
  | [], _ => true
  | _ :: _, [] => false
  | a :: as, b :: bs => if a < b then true else if a = b then listLe as bs else false

/-- Rust `str::cmp`-compatible `≤` on strings (lexicographic by codepoint,
which agrees with byte order on UTF-8). -/
def strLeB (a b : String) : Bool := listLe a.data b.data

/-- The comparator of the final `sort_by` in `list_files`. -/
def entryLe (a b : FileEntry) : Bool := strLeB a.relative_path b.relative_path

/-- Insert into a sorted list (helper of the modelled stable sort). -/
def insertLe {α : Type} (le : α → α → Bool) (a : α) : List α → List α
  | [] => [a]
  | b :: l => if le a b then a :: b :: l else b :: insertLe le a l

/-- Stable insertion sort, modelling `Vec::sort_by`. -/
def sortByLe {α : Type} (le : α → α → Bool) : List α → List α
  | [] => []
  | a :: l => insertLe le a (sortByLe le l)

/-- Traversal fuel for `list_files`: a fixed model bound on the number of
directories visited, ample for the trees considered here (the source loops
forever on symlink cycles; the model reports `outOfFuel` instead). -/
def listFuel : Nat := 10000

/-- `list_files` from the source: canonicalize the root, walk the stack,
sort the rows by relative path. -/
def list_files (fs : Node) (root : String) : Except Err (List FileEntry) :=
  match canonicalize fs (parsePath root) with
  | none => Except.error Err.invalidRoot
  | some rc =>
    match listFilesAux fs rc listFuel [rc] [] with
    | Except.error e => Except.error e
    | Except.ok result => Except.ok (sortByLe entryLe result)

/-- `rename_file` from the source: resolve `root.join(relative_path)`
within the root, require a file, join `new_name` onto the target's parent
without inspecting it, check only that the parent is within the canonical
root, then rename. -/
def rename_file (fs : Node) (root relative_path new_name : String) : Except Err Unit × Node :=
  let rootP := parsePath root
  match canonical_within fs rootP (joinPath rootP relative_path) with
  | Except.error e => (Except.error e, fs)
  | Except.ok absP =>
    if isFile fs absP then
      match absP with
      | [] => (Except.error Err.noParent, fs)
      | _ :: _ =>
        let parent := absP.dropLast
        let newPath := joinPath parent new_name
        match canonicalize fs rootP with
        | none => (Except.error Err.invalidRoot, fs)
        | some rc =>
          if rc.isPrefixOf parent then
            match renameFs fs absP newPath with
            | some fs2 => (Except.ok (), fs2)
            | none => (Except.error Err.renameFailed, fs)
          else (Except.error Err.destEscape, fs)
    else (Except.error Err.notAFile, fs)

/-- `delete_file` from the source: resolve within root, require a file,
remove it. -/
def delete_file (fs : Node) (root relative_path : String) : Except Err Unit × Node :=
  let rootP := parsePath root
  match canonical_within fs rootP (joinPath rootP relative_path) with
  | Except.error e => (Except.error e, fs)
  | Except.ok absP =>
    if isFile fs absP then
      match absP.getLast? with
      | none => (Except.error Err.deleteFailed, fs)
      | some nm =>
        match removeAt fs absP.dropLast nm with
        | some fs2 => (Except.ok (), fs2)
        | none => (Except.error Err.deleteFailed, fs)
    else (Except.error Err.notAFile, fs)

/-- The destination-directory normalisation of `move_file`: trim the input;
empty, `/` and `.` mean the canonical root itself; otherwise strip leading
separators and join onto the raw root. -/
def moveDest (rootP rc : List String) (t : String) : List String :=
  let tl := trimList t.data
  if tl = [] ∨ tl = ['/'] ∨ tl = ['.'] then rc
  else rootP ++ parseComps (tl.dropWhile (fun c => c = '/'))

/-- The final step of `move_file`: destination file = destination directory
joined with the source's file name, then `fs::rename`. -/
def moveFinish (fs : Node) (srcAbs dc : List String) : Except Err Unit × Node :=
  match srcAbs.getLast? with
  | none => (Except.error Err.noFileName, fs)
  | some nm =>
    match renameFs fs srcAbs (dc ++ [nm]) with
    | some fs2 => (Except.ok (), fs2)
    | none => (Except.error Err.moveFailed, fs)

/-- The create-directory branch of `move_file`: create the chain, then
re-canonicalize the created directory (the source checks only that this
canonicalization succeeds) and rename into it. -/
def moveCreate (fs : Node) (srcAbs destDir : List String) : Except Err Unit × Node :=
  match createDirAll fs destDir with
  | (Except.error e, fs1) => (Except.error e, fs1)
  | (Except.ok _, fs1) =>
    match canonicalize fs1 destDir with
    | none => (Except.error Err.createdDirInvalid, fs1)
    | some dc => moveFinish fs1 srcAbs dc

/-- `move_file` after the source has been validated: dispatch on whether
the normalised destination directory exists, and on `create_dir`; a
missing destination with an existing parent first validates that parent
within the root. -/
def moveAfterSrc (fs : Node) (rootP rc srcAbs : List String) (create_dir : Bool)
    (destDir : List String) : Except Err Unit × Node :=
  if pexists fs destDir then
    match canonical_within fs rootP destDir with
    | Except.error e => (Except.error e, fs)
    | Except.ok dc => moveFinish fs srcAbs dc
  else if create_dir then
    if pexists fs (if destDir = [] then rootP else destDir.dropLast) then
      match canonical_within fs rootP (if destDir = [] then rootP else destDir.dropLast) with
      | Except.error e => (Except.error e, fs)
      | Except.ok _ => moveCreate fs srcAbs destDir
    else moveCreate fs srcAbs destDir
  else (Except.error Err.destinationMissing, fs)

/-- `move_file` from the source. -/
def move_file (fs : Node) (root from_relative to_relative_dir : String) (create_dir : Bool) :
    Except Err Unit × Node :=
  let rootP := parsePath root
  match canonicalize fs rootP with
  | none => (Except.error Err.invalidRoot, fs)
  | some rc =>
    match canonical_within fs rootP (joinPath rootP from_relative) with
    | Except.error e => (Except.error e, fs)
    | Except.ok srcAbs =>
      if isFile fs srcAbs then
        moveAfterSrc fs rootP rc srcAbs create_dir (moveDest rootP rc to_relative_dir)
      else (Except.error Err.notAFile, fs)

/-- `create_folder` from the source: validate the lexical parent of
`root.join(relative_dir)` within the root, then `create_dir_all`. -/
def create_folder (fs : Node) (root relative_dir : String) : Except Err Unit × Node :=
  let rootP := parsePath root
  let target := joinPath rootP relative_dir
  let parent := if target = [] then rootP else target.dropLast
  match canonical_within fs rootP parent with
  | Except.error e => (Except.error e, fs)
  | Except.ok _ =>
    match createDirAll fs target with
    | (Except.ok _, fs2) => (Except.ok (), fs2)
    | (Except.error _, fs2) => (Except.error Err.createFolderFailed, fs2)

/-! ### Concrete filesystems used by the claim theorems and witnesses -/

/-- A root `/root` holding `a.txt`, next to an unrelated `/outside`. -/
def fsC1 : Node :=
  Node.dir [("root", Node.dir [("a.txt", Node.file 5 true)] true),
    ("outside", Node.dir [] true)] true

/-- `fsC1` after `rename_file` with a traversal in `new_name`. -/
def fsC1res : Node :=
  Node.dir [("root", Node.dir [] true),
    ("outside", Node.dir [("stolen.txt", Node.file 5 true)] true)] true

/-- A root `/root` holding only `f.txt`. -/
def fsC2 : Node :=
  Node.dir [("root", Node.dir [("f.txt", Node.file 7 true)] true)] true

/-- `fsC2` after `move_file` with `create_dir` through a traversal path:
`/root/a` and a whole `/out2/d` chain outside the root were created and
`f.txt` was moved outside the root. -/
def fsC2res : Node :=
  Node.dir [("root", Node.dir [("a", Node.dir [] true)] true),
    ("out2", Node.dir [("d", Node.dir [("f.txt", Node.file 7 true)] true)] true)] true

/-- `fsC2` after only the `create_dir_all` step of that move (directories
created, file not yet moved). -/
def fsC2mid : Node :=
  Node.dir [("root", Node.dir [("f.txt", Node.file 7 true), ("a", Node.dir [] true)] true),
    ("out2", Node.dir [("d", Node.dir [] true)] true)] true

/-- A root `/root` containing a symlink `s` to the outside directory
`/out`, which holds a file `f`. -/
def fsC4 : Node :=
  Node.dir [("root", Node.dir [("s", Node.symlink ["out"])] true),
    ("out", Node.dir [("f", Node.file 2 true)] true)] true

/-- A root `/root` with an unreadable subdirectory `bad`. -/
def fsC5 : Node :=
  Node.dir [("root", Node.dir [("bad", Node.dir [] false)] true)] true

/-- A root `/root` with a file `x.txt` whose metadata read fails. -/
def fsC5m : Node :=
  Node.dir [("root", Node.dir [("x.txt", Node.file 7 false)] true)] true

/-- A root `/root` with `d/a.txt`. -/
def fsC6 : Node :=
  Node.dir [("root", Node.dir [("d", Node.dir [("a.txt", Node.file 3 true)] true)] true)] true

/-- `fsC6` after `rename_file` with `new_name = "../b.txt"`: the file left
its parent directory `d`. -/
def fsC6res : Node :=
  Node.dir [("root", Node.dir [("d", Node.dir [] true),
    ("b.txt", Node.file 3 true)] true)] true

/-- A root `/root` with `d/a2.txt` and `d/sub`. -/
def fsC6b : Node :=
  Node.dir [("root", Node.dir [("d", Node.dir [("a2.txt", Node.file 4 true),
    ("sub", Node.dir [] true)] true)] true)] true

/-- `fsC6b` after `rename_file` with the multi-component
`new_name = "sub/c.txt"`. -/
def fsC6bres : Node :=
  Node.dir [("root", Node.dir [("d", Node.dir [("sub",
    Node.dir [("c.txt", Node.file 4 true)] true)] true)] true)] true

/-- The spec's listing example: `/root/a/x.txt` (10 bytes), `/root/b.txt`
(0 bytes). -/
def fsC9 : Node :=
  Node.dir [("root", Node.dir [("a", Node.dir [("x.txt", Node.file 10 true)] true),
    ("b.txt", Node.file 0 true)] true)] true

/-- `fsC9` with the on-disk enumeration order of the root reversed. -/
def fsC9x : Node :=
  Node.dir [("root", Node.dir [("b.txt", Node.file 0 true),
    ("a", Node.dir [("x.txt", Node.file 10 true)] true)] true)] true

/-- Boundary and symlink cases for `canonical_within`: `/root` (holding a
directory `x` and a symlink `s` to `/out`), the sibling `/root-evil`,
`/out`, and a symlink `/lnk` into `/root/x`. -/
def fsB : Node :=
  Node.dir [("root", Node.dir [("x", Node.dir [] true),
      ("s", Node.symlink ["out"])] true),
    ("root-evil", Node.dir [] true),
    ("out", Node.dir [] true),
    ("lnk", Node.symlink ["root", "x"])] true

/-- A root `/root` holding only `f.txt` (witness filesystem for the move
claims). -/
def fsW7 : Node :=
  Node.dir [("root", Node.dir [("f.txt", Node.file 1 true)] true)] true

/-- A root `/root` with `a` (witness filesystem for `create_folder`). -/
def fsW10 : Node :=
  Node.dir [("root", Node.dir [("a", Node.dir [] true)] true)] true

/-- `fsW10` after `create_folder` of `a/b`. -/
def fsW10b : Node :=
  Node.dir [("root", Node.dir [("a", Node.dir [("b", Node.dir [] true)] true)] true)] true

/-! ### Sorting lemmas -/

theorem mem_insertLe {α : Type} (le : α → α → Bool) (a x : α) (l : List α)
    (h : x ∈ insertLe le a l) : x = a ∨ x ∈ l := by
  induction l with
  | nil => simpa [insertLe] using h
  | cons b t ih =>
    cases hle : le a b with
    | true =>
      simp only [insertLe, hle, if_true, List.mem_cons] at h
      rcases h with h | h | h
      · exact Or.inl h
      · exact Or.inr (by simp [h])
      · exact Or.inr (List.mem_cons_of_mem _ h)
    | false =>
      simp only [insertLe, hle, Bool.false_eq_true, if_false, List.mem_cons] at h
      rcases h with h | h
      · exact Or.inr (by simp [h])
      · rcases ih h with h2 | h2
        · exact Or.inl h2
        · exact Or.inr (List.mem_cons_of_mem _ h2)

theorem pairwise_insertLe {α : Type} (le : α → α → Bool)
    (total : ∀ a b, le a b = true ∨ le b a = true)
    (htrans : ∀ a b c, le a b = true → le b c = true → le a c = true)
    (a : α) (l : List α) (h : l.Pairwise (fun x y => le x y = true)) :
    (insertLe le a l).Pairwise (fun x y => le x y = true) := by
  induction l with
  | nil => simp [insertLe]
  | cons b t ih =>
    rcases h with - | ⟨hb, ht⟩
    cases hle : le a b with
    | true =>
      simp only [insertLe, hle, if_true]
      refine List.Pairwise.cons ?_ (List.Pairwise.cons hb ht)
      intro y hy
      rcases List.mem_cons.mp hy with rfl | hy2
      · exact hle
      · exact htrans a b y hle (hb y hy2)
    | false =>
      simp only [insertLe, hle, Bool.false_eq_true, if_false]
      refine List.Pairwise.cons ?_ (ih ht)
      intro y hy
      rcases mem_insertLe le a y t hy with rfl | hy2
      · rcases total y b with h1 | h1
        · rw [h1] at hle; cases hle
        · exact h1
      · exact hb y hy2

theorem pairwise_sortByLe {α : Type} (le : α → α → Bool)
    (total : ∀ a b, le a b = true ∨ le b a = true)
    (htrans : ∀ a b c, le a b = true → le b c = true → le a c = true)
    (l : List α) : (sortByLe le l).Pairwise (fun x y => le x y = true) := by
  induction l with
  | nil => simp [sortByLe]
  | cons a t ih => exact pairwise_insertLe le total htrans a (sortByLe le t) ih

theorem listLe_total : ∀ a b : List Char, listLe a b = true ∨ listLe b a = true
  | [], _ => Or.inl rfl
  | _ :: _, [] => Or.inr rfl
  | a :: as, b :: bs => by
    rcases lt_trichotomy a b with hab | hab | hab
    · left; simp [listLe, hab]
    · subst hab
      rcases listLe_total as bs with h | h
      · left; simp [listLe, h]
      · right; simp [listLe, h]
    · right; simp [listLe, hab]

theorem listLe_trans : ∀ a b c : List Char,
    listLe a b = true → listLe b c = true → listLe a c = true
  | [], _, _, _, _ => rfl
  | _ :: _, [], _, h, _ => by simp [listLe] at h
  | _ :: _, _ :: _, [], _, h => by simp [listLe] at h
  | a :: as, b :: bs, c :: cs, h1, h2 => by
    simp only [listLe] at h1 h2 ⊢
    rcases lt_trichotomy a b with hab | hab | hab
    · rcases lt_trichotomy b c with hbc | hbc | hbc
      · simp [lt_trans hab hbc]
      · subst hbc; simp [hab]
      · rw [if_neg (lt_asymm hbc), if_neg (ne_of_gt hbc)] at h2; cases h2
    · subst hab
      rw [if_neg (lt_irrefl a), if_pos rfl] at h1
      rcases lt_trichotomy a c with hac | hac | hac
      · simp [hac]
      · subst hac
        rw [if_neg (lt_irrefl a), if_pos rfl] at h2 ⊢
        exact listLe_trans as bs cs h1 h2
      · rw [if_neg (lt_asymm hac), if_neg (ne_of_gt hac)] at h2; cases h2
    · rw [if_neg (lt_asymm hab), if_neg (ne_of_gt hab)] at h1; cases h1

theorem entryLe_total (a b : FileEntry) : entryLe a b = true ∨ entryLe b a = true :=
  listLe_total _ _

theorem entryLe_trans (a b c : FileEntry) :
    entryLe a b = true → entryLe b c = true → entryLe a c = true :=
  listLe_trans _ _ _

/-! ### Whitespace / separator lemmas for the `move_file` normalisation -/

theorem length_dropWhile_le {α : Type} (p : α → Bool) :
    ∀ l : List α, (l.dropWhile p).length ≤ l.length
  | [] => Nat.le_refl _
  | x :: xs => by
    rw [List.dropWhile_cons]
    by_cases hp : p x = true
    · rw [if_pos hp]
      exact Nat.le_trans (length_dropWhile_le p xs) (Nat.le_succ _)
    · rw [if_neg hp]

theorem dropWhile_fix_head {α : Type} (p : α → Bool) (x : α) (xs : List α)
    (h : (x :: xs).dropWhile p = x :: xs) : p x = false := by
  by_cases hp : p x = true
  · rw [List.dropWhile_cons, if_pos hp] at h
    have h1 := length_dropWhile_le p xs
    rw [h] at h1
    simp only [List.length_cons] at h1
    omega
  · simpa using hp

theorem dropWhile_fix_append {α : Type} (p : α → Bool) (a b : List α)
    (ha : a.dropWhile p = a) (hb : b.dropWhile p = b) :
    (a ++ b).dropWhile p = a ++ b := by
  cases a with
  | nil => simpa using hb
  | cons x xs =>
    have hp := dropWhile_fix_head p x xs ha
    simp [List.dropWhile_cons, hp]

theorem trimList_fix (l : List Char) (h1 : l.dropWhile isWs = l)
    (h2 : l.reverse.dropWhile isWs = l.reverse) : trimList l = l := by
  unfold trimList
  rw [h1, h2, List.reverse_reverse]

theorem trimList_slash_cons (l : List Char)
    (h2 : l.reverse.dropWhile isWs = l.reverse) :
    trimList ('/' :: l) = '/' :: l := by
  have hws : isWs '/' = false := by decide
  unfold trimList
  rw [List.dropWhile_cons, hws, if_neg (by simp)]
  rw [List.reverse_cons]
  rw [dropWhile_fix_append isWs l.reverse ['/'] h2 (by decide)]
  simp

theorem moveDest_slash (s : String)
    (h1 : s.data.dropWhile isWs = s.data)
    (h2 : s.data.reverse.dropWhile isWs = s.data.reverse)
    (h3 : s.data ≠ []) (h4 : s.data ≠ ['/']) (h5 : s.data ≠ ['.']) :
    ∀ rootP rc : List String, moveDest rootP rc ("/" ++ s) = moveDest rootP rc s := by
  intro rootP rc
  have hd : ("/" ++ s).data = '/' :: s.data := rfl
  have hA : ¬('/' :: s.data = [] ∨ '/' :: s.data = ['/'] ∨ '/' :: s.data = ['.']) := by
    simp [h3]
  have hB : ¬(s.data = [] ∨ s.data = ['/'] ∨ s.data = ['.']) := by
    simp [h3, h4, h5]
  simp only [moveDest]
  rw [hd, trimList_slash_cons s.data h2, trimList_fix s.data h1 h2, if_neg hA, if_neg hB]
  rw [List.dropWhile_cons]
  simp

/-! ### Stability of lookups and resolution under directory creation -/

/-- `fs2` extends `fs`: every path that resolves structurally in `fs`
still resolves in `fs2`, to the identical node except that directories may
have gained entries (their `readable` flag is unchanged). -/
def PreservesLookups (fs fs2 : Node) : Prop :=
  ∀ q n, lookupNode fs q = some n →
    lookupNode fs2 q = some n ∨
      ∃ es r es2, n = Node.dir es r ∧ lookupNode fs2 q = some (Node.dir es2 r)

theorem preservesLookups_refl (fs : Node) : PreservesLookups fs fs := fun _ _ h => Or.inl h

theorem preservesLookups_trans {a b c : Node} (h1 : PreservesLookups a b)
    (h2 : PreservesLookups b c) : PreservesLookups a c := by
  intro q n hq
  rcases h1 q n hq with hb | ⟨es, r, es2, rfl, hb⟩
  · exact h2 q n hb
  · rcases h2 q _ hb with hc | ⟨es3, r3, es4, heq, hc⟩
    · exact Or.inr ⟨es, r, es2, rfl, hc⟩
    · injection heq with he hr
      subst hr
      exact Or.inr ⟨es, r, es4, rfl, hc⟩

theorem findEntry_setEntry_self (es : List (String × Node)) (name : String) (v : Node) :
    findEntry (setEntry es name v) name = some v := by
  induction es with
  | nil => simp [setEntry, findEntry]
  | cons p rest ih =>
    obtain ⟨k, w⟩ := p
    by_cases hk : k = name
    · simp [setEntry, hk, findEntry]
    · simp [setEntry, hk, findEntry, ih]

theorem findEntry_setEntry_ne (es : List (String × Node)) (name d : String) (v : Node)
    (hd : d ≠ name) : findEntry (setEntry es name v) d = findEntry es d := by
  have hnd : name ≠ d := Ne.symm hd
  induction es with
  | nil => simp [setEntry, findEntry, hnd]
  | cons p rest ih =>
    obtain ⟨k, w⟩ := p
    by_cases hk : k = name
    · subst hk
      simp [setEntry, findEntry, hnd]
    · simp [setEntry, hk, findEntry, ih]

theorem insertAt_fresh (bp : List String) : ∀ (fs fs2 : Node) (c : String) (v : Node),
    insertAt fs bp c v = some fs2 → lookupNode fs (bp ++ [c]) = none →
    PreservesLookups fs fs2 ∧ lookupNode fs2 (bp ++ [c]) = some v := by
  induction bp with
  | nil =>
    intro fs fs2 c v hins hfresh
    cases fs with
    | file sz m => simp [insertAt, updateAt] at hins
    | symlink t => simp [insertAt, updateAt] at hins
    | dir es r =>
      simp only [insertAt, updateAt] at hins
      injection hins with hins
      subst hins
      have hf : findEntry es c = none := by
        simp only [List.nil_append, lookupNode] at hfresh
        cases hfe : findEntry es c with
        | none => rfl
        | some child => rw [hfe] at hfresh; simp [lookupNode] at hfresh
      constructor
      · intro q n hq
        cases q with
        | nil =>
          simp only [lookupNode] at hq
          injection hq with hq
          subst hq
          exact Or.inr ⟨es, r, setEntry es c v, rfl, rfl⟩
        | cons d qs =>
          simp only [lookupNode] at hq ⊢
          cases hfd : findEntry es d with
          | none => rw [hfd] at hq; cases hq
          | some child =>
            rw [hfd] at hq
            have hdc : d ≠ c := by
              intro hdc
              subst hdc
              rw [hf] at hfd
              cases hfd
            rw [findEntry_setEntry_ne es c d v hdc, hfd]
            exact Or.inl hq
      · simp only [List.nil_append, lookupNode, findEntry_setEntry_self]
  | cons b bt ih =>
    intro fs fs2 c v hins hfresh
    cases fs with
    | file sz m => simp [insertAt, updateAt] at hins
    | symlink t => simp [insertAt, updateAt] at hins
    | dir es r =>
      simp only [insertAt, updateAt] at hins
      cases hfe : findEntry es b with
      | none => simp only [hfe] at hins; cases hins
      | some child =>
        simp only [hfe] at hins
        split at hins
        case h_2 => cases hins
        case h_1 child2 hupd =>
          injection hins with hins
          subst hins
          have hfreshc : lookupNode child (bt ++ [c]) = none := by
            simp only [List.cons_append, lookupNode, hfe] at hfresh
            exact hfresh
          have hins2 : insertAt child bt c v = some child2 := hupd
          obtain ⟨hP, hself⟩ := ih child child2 c v hins2 hfreshc
          constructor
          · intro q n hq
            cases q with
            | nil =>
              simp only [lookupNode] at hq
              injection hq with hq
              subst hq
              exact Or.inr ⟨es, r, setEntry es b child2, rfl, rfl⟩
            | cons d qs =>
              simp only [lookupNode] at hq ⊢
              by_cases hdb : d = b
              · subst hdb
                rw [hfe] at hq
                rw [findEntry_setEntry_self]
                exact hP qs n hq
              · cases hfd : findEntry es d with
                | none => rw [hfd] at hq; cases hq
                | some ch =>
                  rw [hfd] at hq
                  rw [findEntry_setEntry_ne es b d child2 hdb, hfd]
                  exact Or.inl hq
          · simp only [List.cons_append, lookupNode, findEntry_setEntry_self]
            exact hself

theorem resolveComps_stab (fs fs2 : Node) (hP : PreservesLookups fs fs2) :
    ∀ (fuel : Nat) (acc comps res : List String),
      resolveComps fs fuel acc comps = some res → resolveComps fs2 fuel acc comps = some res := by
  intro fuel
  induction fuel with
  | zero => intro acc comps res h; simp [resolveComps] at h
  | succ f ih =>
    intro acc comps res h
    cases comps with
    | nil => simpa [resolveComps] using h
    | cons c rest =>
      simp only [resolveComps] at h ⊢
      by_cases hdot : c = "."
      · rw [if_pos hdot] at h ⊢
        exact ih _ _ _ h
      · rw [if_neg hdot] at h ⊢
        by_cases hdd : c = ".."
        · rw [if_pos hdd] at h ⊢
          exact ih _ _ _ h
        · rw [if_neg hdd] at h ⊢
          cases hl : lookupNode fs (acc ++ [c]) with
          | none => simp only [hl] at h; cases h
          | some node =>
            simp only [hl] at h
            cases node with
            | symlink t =>
              rcases hP (acc ++ [c]) _ hl with hl2 | ⟨es1, r1, es2, hn, hl2⟩
              · simp only [hl2]
                exact ih _ _ _ h
              · nomatch hn
            | file sz m =>
              rcases hP (acc ++ [c]) _ hl with hl2 | ⟨es1, r1, es2, hn, hl2⟩
              · simp only [hl2]
                exact ih _ _ _ h
              · nomatch hn
            | dir es0 r0 =>
              rcases hP (acc ++ [c]) _ hl with hl2 | ⟨es1, r1, es2, hn, hl2⟩
              · simp only [hl2]
                exact ih _ _ _ h
              · simp only [hl2]
                exact ih _ _ _ h

theorem canonicalize_stab (fs fs2 : Node) (hP : PreservesLookups fs fs2)
    (p res : List String) (h : canonicalize fs p = some res) : canonicalize fs2 p = some res :=
  resolveComps_stab fs fs2 hP _ _ _ _ h

theorem canonical_within_stab (fs fs2 : Node) (hP : PreservesLookups fs fs2)
    (root cand res : List String) (h : canonical_within fs root cand = Except.ok res) :
    canonical_within fs2 root cand = Except.ok res := by
  unfold canonical_within at h ⊢
  cases hr : canonicalize fs root with
  | none => rw [hr] at h; simp at h
  | some r =>
    rw [hr] at h
    cases hc : canonicalize fs cand with
    | none => rw [hc] at h; simp at h
    | some cnd =>
      rw [hc] at h
      rw [canonicalize_stab fs fs2 hP root r hr, canonicalize_stab fs fs2 hP cand cnd hc]
      exact h

theorem createDirAllAux_preserves : ∀ (comps : List String) (fs : Node) (base : List String)
    (e : Except Err Unit) (fs2 : Node),
    createDirAllAux fs base comps = (e, fs2) → PreservesLookups fs fs2 := by
  intro comps
  induction comps with
  | nil =>
    intro fs base e fs2 h
    simp only [createDirAllAux] at h
    injection h with h1 h2
    subst h2
    exact preservesLookups_refl fs
  | cons c rest ih =>
    intro fs base e fs2 h
    simp only [createDirAllAux] at h
    by_cases hdot : c = "."
    · rw [if_pos hdot] at h
      exact ih _ _ _ _ h
    · rw [if_neg hdot] at h
      by_cases hdd : c = ".."
      · rw [if_pos hdd] at h
        exact ih _ _ _ _ h
      · rw [if_neg hdd] at h
        cases hl : lookupNode fs (base ++ [c]) with
        | some node =>
          simp only [hl] at h
          cases node with
          | dir es0 r0 => exact ih _ _ _ _ h
          | file sz m =>
            injection h with h1 h2
            subst h2
            exact preservesLookups_refl fs
          | symlink t =>
            cases hc : canonicalize fs (base ++ [c]) with
            | none =>
              simp only [hc] at h
              injection h with h1 h2
              subst h2
              exact preservesLookups_refl fs
            | some d =>
              simp only [hc] at h
              cases hd : lookupNode fs d with
              | some dn =>
                simp only [hd] at h
                cases dn with
                | dir es0 r0 => exact ih _ _ _ _ h
                | file sz m =>
                  injection h with h1 h2
                  subst h2
                  exact preservesLookups_refl fs
                | symlink t2 =>
                  injection h with h1 h2
                  subst h2
                  exact preservesLookups_refl fs
              | none =>
                simp only [hd] at h
                injection h with h1 h2
                subst h2
                exact preservesLookups_refl fs
        | none =>
          simp only [hl] at h
          cases hi : insertAt fs base c (Node.dir [] true) with
          | some fsn =>
            simp only [hi] at h
            obtain ⟨hP1, _⟩ := insertAt_fresh base fs fsn c (Node.dir [] true) hi hl
            exact preservesLookups_trans hP1 (ih _ _ _ _ h)
          | none =>
            simp only [hi] at h
            injection h with h1 h2
            subst h2
            exact preservesLookups_refl fs

theorem createDirAllAux_idem : ∀ (comps : List String) (fs : Node) (base : List String)
    (fs2 : Node),
    createDirAllAux fs base comps = (Except.ok (), fs2) →
    createDirAllAux fs2 base comps = (Except.ok (), fs2) := by
  intro comps
  induction comps with
  | nil =>
    intro fs base fs2 h
    simp only [createDirAllAux] at h
    injection h with h1 h2
    subst h2
    rfl
  | cons c rest ih =>
    intro fs base fs2 h
    simp only [createDirAllAux] at h ⊢
    by_cases hdot : c = "."
    · rw [if_pos hdot] at h ⊢
      exact ih _ _ _ h
    · rw [if_neg hdot] at h ⊢
      by_cases hdd : c = ".."
      · rw [if_pos hdd] at h ⊢
        exact ih _ _ _ h
      · rw [if_neg hdd] at h ⊢
        cases hl : lookupNode fs (base ++ [c]) with
        | some node =>
          simp only [hl] at h
          cases node with
          | dir es0 r0 =>
            have hP : PreservesLookups fs fs2 := createDirAllAux_preserves rest fs (base ++ [c]) _ _ h
            rcases hP (base ++ [c]) _ hl with hl2 | ⟨es1, r1, es2, hn, hl2⟩
            · simp only [hl2]
              exact ih _ _ _ h
            · simp only [hl2]
              exact ih _ _ _ h
          | file sz m =>
            injection h with h1 h2
            cases h1
          | symlink t =>
            cases hc : canonicalize fs (base ++ [c]) with
            | none =>
              simp only [hc] at h
              injection h with h1 h2
              cases h1
            | some d =>
              simp only [hc] at h
              cases hd : lookupNode fs d with
              | some dn =>
                simp only [hd] at h
                cases dn with
                | dir es0 r0 =>
                  have hP : PreservesLookups fs fs2 := createDirAllAux_preserves rest fs d _ _ h
                  rcases hP (base ++ [c]) _ hl with hl2 | ⟨es1, r1, es2, hn, hl2⟩
                  · simp only [hl2]
                    rw [canonicalize_stab fs fs2 hP _ _ hc]
                    rcases hP d _ hd with hd2 | ⟨es3, r3, es4, hn2, hd2⟩
                    · simp only [hd2]
                      exact ih _ _ _ h
                    · injection hn2 with h5 h6
                      subst h6
                      simp only [hd2]
                      exact ih _ _ _ h
                  · nomatch hn
                  -- unreachable: a symlink cannot become a directory
                | file sz m =>
                  injection h with h1 h2
                  cases h1
                | symlink t2 =>
                  injection h with h1 h2
                  cases h1
              | none =>
                simp only [hd] at h
                injection h with h1 h2
                cases h1
        | none =>
          simp only [hl] at h
          cases hi : insertAt fs base c (Node.dir [] true) with
          | some fsn =>
            simp only [hi] at h
            obtain ⟨hP1, hself⟩ := insertAt_fresh base fs fsn c (Node.dir [] true) hi hl
            have hP2 : PreservesLookups fsn fs2 :=
              createDirAllAux_preserves rest fsn (base ++ [c]) _ _ h
            rcases hP2 (base ++ [c]) _ hself with hl2 | ⟨es1, r1, es2, hn, hl2⟩
            · simp only [hl2]
              exact ih _ _ _ h
            · injection hn with h5 h6
              subst h6
              simp only [hl2]
              exact ih _ _ _ h
          | none =>
            simp only [hi] at h
            injection h with h1 h2
            cases h1

theorem processEntries_push (fs : Node) (rc dirp : List String) :
    ∀ (es : List (String × Node)) (name : String) (n0 : Node),
      findEntry es name = some n0 → isDir fs (dirp ++ [name]) = true →
      (dirp ++ [name]) ∈ (processEntries fs rc dirp es).1 := by
  intro es
  induction es with
  | nil => intro name n0 h _; cases h
  | cons p rest ih =>
    intro name n0 hfind hdir
    obtain ⟨k, v⟩ := p
    simp only [findEntry] at hfind
    by_cases hk : k = name
    · subst hk
      simp only [processEntries, hdir, if_true]
      exact List.mem_cons_self _ _
    · rw [if_neg hk] at hfind
      have hmem := ih name n0 hfind hdir
      simp only [processEntries]
      by_cases hd2 : isDir fs (dirp ++ [k])
      · simp only [hd2, if_true]
        exact List.mem_cons_of_mem _ hmem
      · simp only [hd2, Bool.false_eq_true, if_false]
        by_cases hf2 : isFile fs (dirp ++ [k])
        · simp only [hf2, if_true]
          exact hmem
        · simp only [hf2, Bool.false_eq_true, if_false]
          exact hmem

/-! ### Claim theorems -/

/-- Claim C1 (refuted by the code, supporting the code-bug verdict): the
source's own comment says the rename destination must stay within the
root, but `new_name` is joined onto the target's parent unvalidated, so
`rename_file` with `new_name = "../../outside/stolen.txt"` succeeds and
moves `/root/a.txt` to `/outside/stolen.txt`, which is not under the
canonical root `/root`. -/
theorem c1_rename_acts_outside_root :
    rename_file fsC1 "/root" "a.txt" "../../outside/stolen.txt" = (Except.ok (), fsC1res) ∧
    List.isPrefixOf ["root"] ["outside", "stolen.txt"] = false ∧
    lookupNode fsC1res ["outside", "stolen.txt"] = some (Node.file 5 true) ∧
    lookupNode fsC1res ["root", "a.txt"] = none :=
  ⟨rfl, rfl, rfl, rfl⟩

/-- Claim C6 (confirmed): the `rename_file` destination is the lexical
join of the resolved target's parent with `new_name`, whose content is
never validated: `new_name = "../b.txt"` succeeds and the renamed file
lands outside the target's parent directory `/root/d`, and a multi-component
`new_name = "sub/c.txt"` is accepted as well. -/
theorem c6_rename_dest_is_unchecked_lexical_join :
    joinPath ["root", "d"] "../b.txt" = ["root", "d", "..", "b.txt"] ∧
    rename_file fsC6 "/root" "d/a.txt" "../b.txt" = (Except.ok (), fsC6res) ∧
    List.isPrefixOf ["root", "d"] ["root", "b.txt"] = false ∧
    lookupNode fsC6res ["root", "b.txt"] = some (Node.file 3 true) ∧
    rename_file fsC6b "/root" "d/a2.txt" "sub/c.txt" = (Except.ok (), fsC6bres) :=
  ⟨rfl, rfl, rfl, rfl, rfl⟩

/-- Claim C2 counterexample: with `create_dir = true` and destination
`a/../../out2/d` (no existing parent), `move_file` creates the directory
chain, the created directory canonicalizes to `/out2/d`, which is not
within the canonical root `/root`, and the rename is still performed —
there is no post-creation containment check. -/
theorem c2_counterexample :
    move_file fsC2 "/root" "f.txt" "a/../../out2/d" true = (Except.ok (), fsC2res) ∧
    canonicalize fsC2res ["root", "a", "..", "..", "out2", "d"] = some ["out2", "d"] ∧
    List.isPrefixOf ["root"] ["out2", "d"] = false ∧
    lookupNode fsC2res ["out2", "d", "f.txt"] = some (Node.file 7 true) :=
  ⟨rfl, rfl, rfl, rfl⟩

/-- Claim C4 counterexample: `/root/s` is a symlink to the outside
directory `/out`, yet `list_files` descends into it and lists `s/f`, so
symlinked directories are pushed onto the work queue. -/
theorem c4_counterexample :
    lookupNode fsC4 ["root", "s"] = some (Node.symlink ["out"]) ∧
    list_files fsC4 "/root" =
      Except.ok [{ path := "/root/s/f", relative_path := "s/f", size := 2 }] :=
  ⟨rfl, rfl⟩

/-- Claim C5 counterexample: the root of `fsC5` canonicalizes, yet
`list_files` fails (an unreadable subdirectory aborts the traversal), so
`InvalidRoot` is not the only failure of `list_files`. -/
theorem c5_counterexample :
    canonicalize fsC5 (parsePath "/root") = some ["root"] ∧
    list_files fsC5 "/root" = Except.error Err.readDirFailed :=
  ⟨rfl, rfl⟩

/-- Claim C3 (confirmed): `canonical_within fs root cand` succeeds with
`p` exactly when both canonicalizations succeed and the canonical
candidate extends the canonical root component-wise (equality included);
it fails with `invalidRoot` / `invalidPath` exactly when the respective
canonicalization fails, and with `escape` exactly when both succeed but
the prefix test fails.  Component-wise comparison is separator-aware:
concretely, `/root-evil` is rejected under root `/root`, a symlink inside
the root pointing outside is rejected, and a symlink outside the root
resolving inside is accepted. -/
theorem c3_canonical_within_characterization :
    (∀ (fs : Node) (root cand : List String),
      (∀ p, canonical_within fs root cand = Except.ok p ↔
          canonicalize fs cand = some p ∧
            ∃ r, canonicalize fs root = some r ∧ r.isPrefixOf p = true) ∧
      (canonical_within fs root cand = Except.error Err.invalidRoot ↔
          canonicalize fs root = none) ∧
      (canonical_within fs root cand = Except.error Err.invalidPath ↔
          (∃ r, canonicalize fs root = some r) ∧ canonicalize fs cand = none) ∧
      (canonical_within fs root cand = Except.error Err.escape ↔
          ∃ r p, canonicalize fs root = some r ∧ canonicalize fs cand = some p ∧
            r.isPrefixOf p = false)) ∧
    canonical_within fsB ["root"] ["root-evil"] = Except.error Err.escape ∧
    canonical_within fsB ["root"] ["root", "s"] = Except.error Err.escape ∧
    canonical_within fsB ["root"] ["lnk"] = Except.ok ["root", "x"] := by
  refine ⟨?_, rfl, rfl, rfl⟩
  intro fs root cand
  refine ⟨?_, ?_, ?_, ?_⟩
  · intro p
    cases hr : canonicalize fs root with
    | none => simp [canonical_within, hr]
    | some r =>
      cases hc : canonicalize fs cand with
      | none => simp [canonical_within, hr, hc]
      | some c =>
        simp only [canonical_within, hr, hc]
        by_cases hip : r.isPrefixOf c = true
        · rw [if_pos hip]
          constructor
          · intro hok
            injection hok with hok
            subst hok
            exact ⟨rfl, r, rfl, hip⟩
          · rintro ⟨hc2, r0, hr0, hp0⟩
            injection hc2 with hc2
            subst hc2
            rfl
        · rw [if_neg hip]
          constructor
          · intro hok; cases hok
          · rintro ⟨hc2, r0, hr0, hp0⟩
            injection hc2 with hc2
            subst hc2
            injection hr0 with hr0
            subst hr0
            exact absurd hp0 hip
  · cases hr : canonicalize fs root with
    | none => simp [canonical_within, hr]
    | some r =>
      cases hc : canonicalize fs cand with
      | none => simp [canonical_within, hr, hc]
      | some c =>
        simp only [canonical_within, hr, hc]
        by_cases hip : r.isPrefixOf c = true
        · rw [if_pos hip]; simp
        · rw [if_neg hip]; simp
  · cases hr : canonicalize fs root with
    | none => simp [canonical_within, hr]
    | some r =>
      cases hc : canonicalize fs cand with
      | none => simp [canonical_within, hr, hc]
      | some c =>
        simp only [canonical_within, hr, hc]
        by_cases hip : r.isPrefixOf c = true
        · rw [if_pos hip]; simp
        · rw [if_neg hip]; simp
  · cases hr : canonicalize fs root with
    | none => simp [canonical_within, hr]
    | some r =>
      cases hc : canonicalize fs cand with
      | none => simp [canonical_within, hr, hc]
      | some c =>
        simp only [canonical_within, hr, hc]
        by_cases hip : r.isPrefixOf c = true
        · rw [if_pos hip]
          constructor
          · intro hok; cases hok
          · rintro ⟨r0, p0, hr0, hp0, hnp⟩
            injection hr0 with hr0
            subst hr0
            injection hp0 with hp0
            subst hp0
            rw [hip] at hnp
            cases hnp
        · rw [if_neg hip]
          constructor
          · intro _
            refine ⟨r, c, rfl, rfl, ?_⟩
            cases hx : r.isPrefixOf c with
            | true => exact absurd hx hip
            | false => rfl
          · intro _; rfl

/-- Claim C2 (amended): in the create-directory branch of `move_file`
(destination missing, `create_dir = true`, nearest parent also missing so
pre-creation validation is skipped), the operation only requires the
created directory to canonicalize successfully; it does not compare the
canonical result with the root — even when that canonical directory is
not within the canonical root (hypothesis `rc.isPrefixOf d = false`), the
rename is performed and the move reports success. -/
theorem c2_amended_no_containment_recheck :
    ∀ (fs : Node) (root from_relative to_relative_dir : String) (rc srcAbs d : List String)
      (fs1 fs2 : Node) (nm : String),
      canonicalize fs (parsePath root) = some rc →
      canonical_within fs (parsePath root) (joinPath (parsePath root) from_relative) =
        Except.ok srcAbs →
      isFile fs srcAbs = true →
      pexists fs (moveDest (parsePath root) rc to_relative_dir) = false →
      pexists fs (if moveDest (parsePath root) rc to_relative_dir = [] then parsePath root
        else (moveDest (parsePath root) rc to_relative_dir).dropLast) = false →
      createDirAll fs (moveDest (parsePath root) rc to_relative_dir) = (Except.ok (), fs1) →
      canonicalize fs1 (moveDest (parsePath root) rc to_relative_dir) = some d →
      rc.isPrefixOf d = false →
      srcAbs.getLast? = some nm →
      renameFs fs1 srcAbs (d ++ [nm]) = some fs2 →
      move_file fs root from_relative to_relative_dir true = (Except.ok (), fs2) := by
  intro fs root f t rc srcAbs d fs1 fs2 nm h1 h2 h3 h4 h5 h6 h7 h8 h9 h10
  simp [move_file, h1, h2, h3, moveAfterSrc, h4, h5, moveCreate, h6, h7, moveFinish, h9, h10]

/-- Witness for C2's amended theorem, at the counterexample input. -/
theorem c2_amended_witness :
    move_file fsC2 "/root" "f.txt" "a/../../out2/d" true = (Except.ok (), fsC2res) :=
  c2_amended_no_containment_recheck fsC2 "/root" "f.txt" "a/../../out2/d" ["root"]
    ["root", "f.txt"] ["out2", "d"] fsC2mid fsC2res "f.txt"
    rfl rfl rfl rfl rfl rfl rfl rfl rfl rfl

/-- Claim C4 (amended): `list_files` follows directory symlinks: a child
entry that is structurally a symlink whose resolution is a directory
passes the `is_dir` test (which resolves symlinks) and is therefore
pushed onto the work queue, so symlinked directories are descended into. -/
theorem c4_amended_symlinked_dirs_pushed :
    ∀ (fs : Node) (rc dirp : List String) (es : List (String × Node)) (name : String)
      (n0 : Node) (t d : List String) (des : List (String × Node)) (rb : Bool),
      findEntry es name = some n0 →
      lookupNode fs (dirp ++ [name]) = some (Node.symlink t) →
      canonicalize fs (dirp ++ [name]) = some d →
      lookupNode fs d = some (Node.dir des rb) →
      (dirp ++ [name]) ∈ (processEntries fs rc dirp es).1 := by
  intro fs rc dirp es name n0 t d des rb hfind hsym hc hd
  have hdir : isDir fs (dirp ++ [name]) = true := by
    simp [isDir, statNode, hc, hd]
  exact processEntries_push fs rc dirp es name n0 hfind hdir

/-- Witness for C4's amended theorem: the symlinked directory `/root/s`
of `fsC4` is pushed. -/
theorem c4_amended_witness :
    (["root", "s"] : List String) ∈
      (processEntries fsC4 ["root"] ["root"] [("s", Node.symlink ["out"])]).1 :=
  c4_amended_symlinked_dirs_pushed fsC4 ["root"] ["root"] [("s", Node.symlink ["out"])]
    "s" (Node.symlink ["out"]) ["out"] ["out"] [("f", Node.file 2 true)] true
    rfl rfl rfl rfl

/-- Claim C5 (amended): `list_files` fails with `invalidRoot` whenever the
root does not canonicalize (but a failing directory read during traversal
also aborts the listing, so this is not its only failure signal — see the
counterexample); a failed metadata read does not abort: the entry is still
produced, with size `0`. -/
theorem c5_amended_listing_errors :
    (∀ (fs : Node) (root : String),
      canonicalize fs (parsePath root) = none →
      list_files fs root = Except.error Err.invalidRoot) ∧
    (∀ (fs : Node) (p : List String) (sz : Nat),
      lstatLast fs p = some (Node.file sz false) → entrySize fs p = 0) ∧
    list_files fsC5m "/root" =
      Except.ok [{ path := "/root/x.txt", relative_path := "x.txt", size := 0 }] := by
  refine ⟨?_, ?_, rfl⟩
  · intro fs root h
    simp [list_files, h]
  · intro fs p sz h
    simp [entrySize, h]

/-- Witness for C5's amended theorem. -/
theorem c5_witness :
    list_files (Node.dir [] true) "/nope" = Except.error Err.invalidRoot ∧
    entrySize fsC5m ["root", "x.txt"] = 0 :=
  ⟨c5_amended_listing_errors.1 (Node.dir [] true) "/nope" rfl,
   c5_amended_listing_errors.2.1 fsC5m ["root", "x.txt"] 7 rfl⟩

/-- Claim C7 (confirmed): when the source validates as a file and the
normalised destination directory does not exist, `move_file` with
`create_dir = false` fails with `destinationMissing` and returns the
filesystem unchanged — no directory is created and the file is not moved. -/
theorem c7_move_destination_missing :
    ∀ (fs : Node) (root from_relative to_relative_dir : String) (rc srcAbs : List String),
      canonicalize fs (parsePath root) = some rc →
      canonical_within fs (parsePath root) (joinPath (parsePath root) from_relative) =
        Except.ok srcAbs →
      isFile fs srcAbs = true →
      pexists fs (moveDest (parsePath root) rc to_relative_dir) = false →
      move_file fs root from_relative to_relative_dir false =
        (Except.error Err.destinationMissing, fs) := by
  intro fs root f t rc srcAbs h1 h2 h3 h4
  simp [move_file, h1, h2, h3, moveAfterSrc, h4]

/-- Witness for C7. -/
theorem c7_witness :
    move_file fsW7 "/root" "f.txt" "nope" false = (Except.error Err.destinationMissing, fsW7) :=
  c7_move_destination_missing fsW7 "/root" "f.txt" "nope" ["root"] ["root", "f.txt"]
    rfl rfl rfl rfl

/-- Claim C8 (confirmed): `move_file` treats the empty string, `"/"` and
`"."` as the root itself — the three calls are equal — and a leading path
separator on a trimmed, non-degenerate destination is stripped before
joining, so `"/"++s` and `s` give equal results. -/
theorem c8_move_dest_normalisation :
    (∀ (fs : Node) (root from_relative : String) (c : Bool),
      move_file fs root from_relative "" c = move_file fs root from_relative "/" c ∧
      move_file fs root from_relative "." c = move_file fs root from_relative "" c) ∧
    (∀ (fs : Node) (root from_relative : String) (c : Bool) (s : String),
      s.data.dropWhile isWs = s.data →
      s.data.reverse.dropWhile isWs = s.data.reverse →
      s.data ≠ [] → s.data ≠ ['/'] → s.data ≠ ['.'] →
      move_file fs root from_relative ("/" ++ s) c = move_file fs root from_relative s c) := by
  constructor
  · intro fs root f c
    exact ⟨rfl, rfl⟩
  · intro fs root f c s h1 h2 h3 h4 h5
    simp only [move_file, moveDest_slash s h1 h2 h3 h4 h5]

/-- Witness for C8's leading-separator conjunct. -/
theorem c8_witness :
    move_file fsW7 "/root" "f.txt" "/sub" false = move_file fsW7 "/root" "f.txt" "sub" false :=
  c8_move_dest_normalisation.2 fsW7 "/root" "f.txt" false "sub" rfl rfl
    (by decide) (by decide) (by decide)

/-- Claim C9 (confirmed): every successful `list_files` result is sorted
by relative path under the codepoint/byte order, and the spec's concrete
example lists `a/x.txt` (10 bytes) before `b.txt` (0 bytes) regardless of
the on-disk enumeration order. -/
theorem c9_list_files_sorted :
    (∀ (fs : Node) (root : String) (r : List FileEntry),
      list_files fs root = Except.ok r → r.Pairwise (fun a b => entryLe a b = true)) ∧
    list_files fsC9 "/root" =
      Except.ok [{ path := "/root/a/x.txt", relative_path := "a/x.txt", size := 10 },
        { path := "/root/b.txt", relative_path := "b.txt", size := 0 }] ∧
    list_files fsC9x "/root" =
      Except.ok [{ path := "/root/a/x.txt", relative_path := "a/x.txt", size := 10 },
        { path := "/root/b.txt", relative_path := "b.txt", size := 0 }] := by
  refine ⟨?_, rfl, rfl⟩
  intro fs root r h
  simp only [list_files] at h
  cases hr : canonicalize fs (parsePath root) with
  | none => simp only [hr] at h; cases h
  | some rc =>
    simp only [hr] at h
    cases ha : listFilesAux fs rc listFuel [rc] [] with
    | error e => simp only [ha] at h; cases h
    | ok res =>
      simp only [ha] at h
      injection h with h
      subst h
      exact pairwise_sortByLe entryLe entryLe_total entryLe_trans res

/-- Witness for C9's general sortedness conjunct. -/
theorem c9_witness :
    ([{ path := "/root/a/x.txt", relative_path := "a/x.txt", size := 10 },
      { path := "/root/b.txt", relative_path := "b.txt", size := 0 }] :
        List FileEntry).Pairwise (fun a b => entryLe a b = true) :=
  c9_list_files_sorted.1 fsC9 "/root" _ rfl

/-- Claim C10 (confirmed): `create_folder` is idempotent — if a call
succeeds, producing filesystem `fs2`, then repeating it on `fs2` with the
same arguments succeeds and returns `fs2` unchanged, so the directory
tree after the second call is identical. -/
theorem c10_create_folder_idempotent :
    ∀ (fs : Node) (root relative_dir : String) (fs2 : Node),
      create_folder fs root relative_dir = (Except.ok (), fs2) →
      create_folder fs2 root relative_dir = (Except.ok (), fs2) := by
  intro fs root rel fs2 h
  simp only [create_folder] at h ⊢
  cases hcw : canonical_within fs (parsePath root)
      (if joinPath (parsePath root) rel = [] then parsePath root
        else (joinPath (parsePath root) rel).dropLast) with
  | error e =>
    simp only [hcw] at h
    injection h with h1 h2
    cases h1
  | ok w =>
    simp only [hcw] at h
    cases hcd : createDirAll fs (joinPath (parsePath root) rel) with
    | mk e fsr =>
      simp only [hcd] at h
      cases e with
      | error e2 =>
        injection h with h1 h2
        cases h1
      | ok u =>
        injection h with h1 h2
        subst h2
        have hcd2 : createDirAllAux fs [] (joinPath (parsePath root) rel) =
            (Except.ok (), fsr) := hcd
        have hP : PreservesLookups fs fsr :=
          createDirAllAux_preserves (joinPath (parsePath root) rel) fs [] _ _ hcd2
        have hcw2 := canonical_within_stab fs fsr hP _ _ _ hcw
        have hidem := createDirAllAux_idem (joinPath (parsePath root) rel) fs [] fsr hcd2
        simp only [hcw2, createDirAll, hidem]

/-- Witness for C10, repeating `create_folder` of `a/b`. -/
theorem c10_witness :
    create_folder fsW10b "/root" "a/b" = (Except.ok (), fsW10b) :=
  c10_create_folder_idempotent fsW10 "/root" "a/b" fsW10b rfl
